import Mathlib

/-!
# SustainAI Tips frontend — verification of the tip categorizer and request coordinator

This file gives a shallow embedding of the logic of `src/pages/index.tsx`:

* the tip categorizer `renderTipCards` (lines 53–115), including a faithful
  model of the JavaScript regular expression
  `/## \d+\.\s*(.*?)(?:\s*\(.*\))?$/` used to extract a category name from a
  markdown heading line, with JavaScript backtracking semantics (leftmost
  start position, greedy `\s*`/`.*`, lazy `(.*?)`, optional group tried
  present-first, `$` anchored at end of string);
* the submit handler `handleSubmit` (lines 28–47), modelled as a pure state
  transformer over the outcome of the single network request.

Theorems about these definitions settle the frozen claims about the
repository's specification.
-/

namespace SustainAI

/-- JavaScript `\d`: the ASCII decimal digits. -/
def jsIsDigit (c : Char) : Bool := c.isDigit

/-- JavaScript `\s`: ECMAScript WhiteSpace and LineTerminator code points. -/
def jsIsSpace (c : Char) : Bool :=
  let n := c.toNat
  n == 9 || n == 10 || n == 11 || n == 12 || n == 13 || n == 32 ||
  n == 160 || n == 5760 || (decide (8192 ≤ n) && decide (n ≤ 8202)) ||
  n == 8232 || n == 8233 || n == 8239 || n == 8287 || n == 12288 || n == 65279

/-- JavaScript `.` without the `s` flag: any character except a line
terminator (LF, CR, LINE SEPARATOR, PARAGRAPH SEPARATOR). -/
def jsIsDot (c : Char) : Bool :=
  !(c.toNat == 10 || c.toNat == 13 || c.toNat == 8232 || c.toNat == 8233)

/-- One attempt of the regex fragment `\(.*\)$` at the current position:
a literal open parenthesis, a run of non-line-terminator characters, and a
close parenthesis that ends the string.  Because `$` anchors at the end,
the greedy `.*` is forced to cover everything strictly between the opening
parenthesis and the final character. -/
def parenCore (t : List Char) : Bool :=
  match t with
  | [] => false
  | c :: rest => c == '(' && rest.getLast? == some ')' && rest.dropLast.all jsIsDot

/-- The regex fragment `\s*\(.*\)$`: strip some prefix of whitespace (the
greedy `\s*` explores all lengths; only success matters here since the
group is non-capturing), then `parenCore` must close the string. -/
def parenTailOk : List Char → Bool
  | [] => false
  | c :: rest => parenCore (c :: rest) || (jsIsSpace c && parenTailOk rest)

/-- The lazy capture group `(.*?)` followed by `(?:\s*\(.*\))?$`.
`acc` is the text captured so far.  At each position the engine first tries
to finish: the optional group present (`parenTailOk`), then absent (end of
string); only if both fail does the lazy group consume one more (non-line
terminator) character. -/
def lazyScan (acc : List Char) : List Char → Option (List Char)
  | [] => some acc
  | c :: rest =>
    if parenTailOk (c :: rest) then some acc
    else if jsIsDot c then lazyScan (acc ++ [c]) rest
    else none

/-- Backtracking of the greedy `\s*` that precedes the lazy group: try the
longest whitespace prefix first, then shorter ones. -/
def tailMatchGo (s : List Char) : Nat → Option (List Char)
  | 0 => lazyScan [] s
  | w + 1 =>
    match lazyScan [] (s.drop (w + 1)) with
    | some g => some g
    | none => tailMatchGo s w

/-- The regex tail `\s*(.*?)(?:\s*\(.*\))?$` applied to the text after the
ordinal's period; returns the contents of capture group 1. -/
def tailMatch (s : List Char) : Option (List Char) :=
  tailMatchGo s (s.takeWhile jsIsSpace).length

/-- Attempt the whole regex `## \d+\.\s*(.*?)(?:\s*\(.*\))?$` at a fixed
start position.  `\d+` is greedy; a shorter digit run is always followed by
another digit, never by `.`, so only the maximal run can succeed. -/
def matchAt : List Char → Option (List Char)
  | '#' :: '#' :: ' ' :: rest =>
    let ds := rest.takeWhile jsIsDigit
    if ds.isEmpty then none
    else
      match rest.drop ds.length with
      | '.' :: rest2 => tailMatch rest2
      | _ => none
  | _ => none

/-- JavaScript `String.prototype.match` with a non-global regex: scan start
positions left to right and return capture group 1 of the first match. -/
def regexMatch : List Char → Option (List Char)
  | [] => none
  | c :: rest =>
    match matchAt (c :: rest) with
    | some g => some g
    | none => regexMatch rest

/-- The guard `tip.startsWith('## ')` from line 70 of the source. -/
def headingMarkerTest : List Char → Bool
  | '#' :: '#' :: ' ' :: _ => true
  | _ => false

/-- Category-name extraction for one line, as performed by lines 70–76 of
the source: the regex is only consulted when the line starts with the
heading marker, and the extracted name is capture group 1. -/
def headingNameOf (l : String) : Option String :=
  if headingMarkerTest l.data then (regexMatch l.data).map (fun g => String.mk g)
  else none

/-- The five fixed category names, in the declaration order of the
`categories` object literal (lines 55–61). -/
def categoryNames : List String :=
  ["Quick Wins", "Sustainable Living", "Transportation & Mobility",
   "Community & Social Impact", "Environmental Protection"]

/-- A heading line whose extracted name is one of the five recognized
category names. -/
def isRecognizedHeading (l : String) : Bool :=
  match headingNameOf l with
  | some g => categoryNames.contains g
  | none => false

/-- A line on which the heading regex succeeds (whatever the name). -/
def isMatchingHeading (l : String) : Bool := (headingNameOf l).isSome

/-- The mutable state of the categorization loop (lines 63–65):
`currentCategory` starts as the empty string, `currentTips` as the empty
array, and `categories` holds the five buckets in declaration order. -/
structure ScanState where
  currentCategory : String
  currentTips : List String
  buckets : List (String × List String)
  deriving Repr, DecidableEq

/-- The object assignment `categories[currentCategory] = currentTips`
(line 80); the key is always one of the five fixed keys, so assignment
replaces the value in place without changing the key set or order. -/
def setBucket (bs : List (String × List String)) (k : String) (v : List String) :
    List (String × List String) :=
  bs.map (fun p => if p.fst == k then (p.fst, v) else p)

/-- One iteration of `tips.forEach` (lines 68–82).  A heading-marker line
consults the regex: on success the cursor moves and the accumulator is
cleared, on failure nothing happens.  Any other line is appended to the
current bucket provided the cursor is a non-empty recognized name. -/
def processTip (st : ScanState) (tip : String) : ScanState :=
  if headingMarkerTest tip.data then
    match regexMatch tip.data with
    | some g => { st with currentCategory := String.mk g, currentTips := [] }
    | none => st
  else if !st.currentCategory.isEmpty && categoryNames.contains st.currentCategory then
    let newTips := st.currentTips ++ [tip]
    { st with currentTips := newTips,
              buckets := setBucket st.buckets st.currentCategory newTips }
  else st

/-- The five buckets, created empty (lines 55–61). -/
def initCategories : List (String × List String) :=
  categoryNames.map (fun c => (c, []))

/-- The loop's initial state (lines 55–65). -/
def initState : ScanState :=
  { currentCategory := "", currentTips := [], buckets := initCategories }

/-- The whole categorization pass over the response lines. -/
def scanTips (tips : List String) : ScanState :=
  tips.foldl processTip initState

/-- Property access `categories[c]` on the bucket association list (the
five keys are distinct, so first-match lookup is object indexing). -/
def lookupBucket (c : String) : List (String × List String) → List String
  | [] => []
  | (a, w) :: bs => if a == c then w else lookupBucket c bs

/-- The bucket currently stored under a category name. -/
def bucketOf (st : ScanState) (c : String) : List String :=
  lookupBucket c st.buckets

/-- The rendered card list (lines 86–113): `Object.entries` of the five
buckets in declaration order, keeping exactly those with
`categoryTips.length > 0`. -/
def renderTipCards (tips : List String) : List (String × List String) :=
  (scanTips tips).buckets.filter (fun p => decide (p.snd.length > 0))

/-- The body lines that the loop appends to the freshly reset accumulator
after a heading occurrence: the lines up to the next successfully matching
heading, with heading-marker lines (which are skipped, not appended)
removed. -/
def bodyLinesAfter (ts : List String) : List String :=
  (ts.takeWhile (fun l => !isMatchingHeading l)).filter
    (fun l => !headingMarkerTest l.data)

/-- The component state touched by `handleSubmit` (lines 18–22). -/
structure AppState where
  location : String
  habits : String
  tips : List String
  loading : Bool
  error : Option String
  deriving Repr, DecidableEq

/-- Outcome of the single `axios.post` call: either a successful response
carrying the `tips` list, or any failure (network error or non-success
response), which `axios` surfaces as a thrown error. -/
inductive RequestOutcome where
  | success (tips : List String)
  | failure
  deriving Repr, DecidableEq

/-- The generic user-facing error message (line 42). -/
def submitErrorMessage : String := "Failed to generate tips. Please try again."

/-- `handleSubmit` (lines 28–47) as a state transformer: enter loading and
clear error and tips; on success store the returned tips, on failure store
the generic message; finally leave loading. -/
def handleSubmit (st : AppState) (outcome : RequestOutcome) : AppState :=
  let started := { st with loading := true, error := none, tips := [] }
  let finished :=
    match outcome with
    | RequestOutcome.success ts => { started with tips := ts }
    | RequestOutcome.failure => { started with error := some submitErrorMessage }
  { finished with loading := false }

/-- The submit control is disabled exactly while loading (line 191). -/
def submitDisabled (st : AppState) : Bool := st.loading

/-! ## Basic facts about the initial buckets and the loop body -/

theorem mem_initCategories {c : String} {ls : List String}
    (h : (c, ls) ∈ initCategories) : ls = [] := by
  rcases List.mem_map.mp h with ⟨a, _, heq⟩
  injection heq with h1 h2
  exact h2.symm

theorem categoryNames_ne_empty : ∀ c ∈ categoryNames, c.isEmpty = false := by decide

theorem contains_eq_false_of_not_mem {c : String} (h : c ∉ categoryNames) :
    categoryNames.contains c = false := by
  cases hb : categoryNames.contains c with
  | false => rfl
  | true => exact absurd (List.elem_iff.mp hb) h

theorem processTip_heading_found (st : ScanState) (tip : String) (g : List Char)
    (h1 : headingMarkerTest tip.data = true) (h2 : regexMatch tip.data = some g) :
    processTip st tip =
      { st with currentCategory := String.mk g, currentTips := [] } := by
  simp [processTip, h1, h2]

theorem processTip_heading_fail (st : ScanState) (tip : String)
    (h1 : headingMarkerTest tip.data = true) (h2 : regexMatch tip.data = none) :
    processTip st tip = st := by
  simp [processTip, h1, h2]

theorem processTip_body (st : ScanState) (tip : String)
    (h1 : headingMarkerTest tip.data = false)
    (h2 : st.currentCategory ∈ categoryNames) :
    processTip st tip =
      { st with currentTips := st.currentTips ++ [tip],
                buckets := setBucket st.buckets st.currentCategory
                  (st.currentTips ++ [tip]) } := by
  have hne : st.currentCategory.isEmpty = false := categoryNames_ne_empty _ h2
  simp [processTip, h1, hne, h2]

theorem processTip_skip (st : ScanState) (tip : String)
    (h1 : headingMarkerTest tip.data = false)
    (h2 : st.currentCategory ∉ categoryNames) :
    processTip st tip = st := by
  simp [processTip, h1, h2]

/-! ## The key set of the bucket association list never changes -/

theorem setBucket_cons (a : String) (w : List String)
    (bs : List (String × List String)) (k : String) (v : List String) :
    setBucket ((a, w) :: bs) k v =
      (if a == k then (a, v) else (a, w)) :: setBucket bs k v := rfl

theorem setBucket_map_fst (bs : List (String × List String)) (k : String)
    (v : List String) :
    (setBucket bs k v).map Prod.fst = bs.map Prod.fst := by
  induction bs with
  | nil => rfl
  | cons p bs ih =>
    obtain ⟨a, w⟩ := p
    rw [setBucket_cons, List.map_cons, List.map_cons, ih]
    congr 1
    split <;> rfl

theorem processTip_buckets_fst (st : ScanState) (tip : String) :
    (processTip st tip).buckets.map Prod.fst = st.buckets.map Prod.fst := by
  by_cases h1 : headingMarkerTest tip.data = true
  · cases hre : regexMatch tip.data with
    | some g => rw [processTip_heading_found st tip g h1 hre]
    | none => rw [processTip_heading_fail st tip h1 hre]
  · have h1f : headingMarkerTest tip.data = false := by simpa using h1
    by_cases h2 : st.currentCategory ∈ categoryNames
    · rw [processTip_body st tip h1f h2]
      exact setBucket_map_fst _ _ _
    · rw [processTip_skip st tip h1f h2]

theorem foldl_buckets_fst (ts : List String) :
    ∀ st : ScanState,
      (ts.foldl processTip st).buckets.map Prod.fst = st.buckets.map Prod.fst := by
  induction ts with
  | nil => intro st; rfl
  | cons l ts ih =>
    intro st
    rw [List.foldl_cons, ih, processTip_buckets_fst]

theorem initCategories_fst : initCategories.map Prod.fst = categoryNames := by decide

theorem scanTips_buckets_fst (ts : List String) :
    (scanTips ts).buckets.map Prod.fst = categoryNames := by
  rw [scanTips, foldl_buckets_fst]
  simp [initState, initCategories_fst]

/-! ## Reading buckets back after an assignment -/

theorem lookupBucket_setBucket_self (k : String) (v : List String) :
    ∀ bs : List (String × List String), k ∈ bs.map Prod.fst →
      lookupBucket k (setBucket bs k v) = v
  | [], h => by simp at h
  | (a, w) :: bs, h => by
    rw [setBucket_cons]
    by_cases hak : a = k
    · have hhead : (if a == k then (a, v) else (a, w)) = (a, v) := by simp [hak]
      rw [hhead]
      simp [lookupBucket, hak]
    · have h2 : (a == k) = false := beq_eq_false_iff_ne.mpr hak
      have hk : k ∈ bs.map Prod.fst := by
        simp only [List.map_cons, List.mem_cons] at h
        rcases h with h | h
        · exact absurd h.symm hak
        · exact h
      have hhead : (if a == k then (a, v) else (a, w)) = (a, w) := by simp [h2]
      rw [hhead]
      have hstep : lookupBucket k ((a, w) :: setBucket bs k v) =
          lookupBucket k (setBucket bs k v) := by simp [lookupBucket, h2]
      rw [hstep]
      exact lookupBucket_setBucket_self k v bs hk

theorem lookupBucket_setBucket_ne (c k : String) (v : List String) (hck : c ≠ k) :
    ∀ bs : List (String × List String),
      lookupBucket c (setBucket bs k v) = lookupBucket c bs
  | [] => rfl
  | (a, w) :: bs => by
    rw [setBucket_cons]
    by_cases hak : a = k
    · have hhead : (if a == k then (a, v) else (a, w)) = (a, v) := by simp [hak]
      rw [hhead]
      have hac : (a == c) = false := by
        rw [hak]
        exact beq_eq_false_iff_ne.mpr (Ne.symm hck)
      simp [lookupBucket, hac]
      exact lookupBucket_setBucket_ne c k v hck bs
    · have h2 : (a == k) = false := beq_eq_false_iff_ne.mpr hak
      have hhead : (if a == k then (a, v) else (a, w)) = (a, w) := by simp [h2]
      rw [hhead]
      cases hac : (a == c) with
      | true => simp [lookupBucket, hac]
      | false =>
        simp [lookupBucket, hac]
        exact lookupBucket_setBucket_ne c k v hck bs

/-! ## Heading classification facts -/

theorem not_mem_of_contains_eq_false {c : String}
    (h : categoryNames.contains c = false) : c ∉ categoryNames := fun hm => by
  have ht : categoryNames.contains c = true := List.elem_iff.mpr hm
  rw [ht] at h
  exact Bool.noConfusion h

theorem headingNameOf_of_marker_false {l : String}
    (h : headingMarkerTest l.data = false) : headingNameOf l = none := by
  simp [headingNameOf, h]

theorem headingNameOf_of_found {l : String} {g : List Char}
    (h1 : headingMarkerTest l.data = true) (h2 : regexMatch l.data = some g) :
    headingNameOf l = some (String.mk g) := by
  simp [headingNameOf, h1, h2]

theorem headingNameOf_of_fail {l : String}
    (h1 : headingMarkerTest l.data = true) (h2 : regexMatch l.data = none) :
    headingNameOf l = none := by
  simp [headingNameOf, h1, h2]

theorem headingNameOf_eq_some {l c : String} (h : headingNameOf l = some c) :
    headingMarkerTest l.data = true ∧ regexMatch l.data = some c.data := by
  by_cases hm : headingMarkerTest l.data = true
  · refine ⟨hm, ?_⟩
    simp only [headingNameOf, hm, if_true] at h
    cases hre : regexMatch l.data with
    | none => rw [hre] at h; simp at h
    | some g =>
      rw [hre] at h
      have hg : String.mk g = c := by simpa using h
      rw [← hg]
  · have hm0 : headingMarkerTest l.data = false := by simpa using hm
    rw [headingNameOf_of_marker_false hm0] at h
    exact absurd h (by simp)

theorem isRecognizedHeading_eq_contains {l c : String}
    (h : headingNameOf l = some c) :
    isRecognizedHeading l = categoryNames.contains c := by
  simp [isRecognizedHeading, h]

theorem isMatchingHeading_of_found {l : String} {g : List Char}
    (h1 : headingMarkerTest l.data = true) (h2 : regexMatch l.data = some g) :
    isMatchingHeading l = true := by
  simp [isMatchingHeading, headingNameOf_of_found h1 h2]

theorem isMatchingHeading_of_fail {l : String}
    (h1 : headingMarkerTest l.data = true) (h2 : regexMatch l.data = none) :
    isMatchingHeading l = false := by
  simp [isMatchingHeading, headingNameOf_of_fail h1 h2]

theorem isMatchingHeading_of_marker_false {l : String}
    (h : headingMarkerTest l.data = false) : isMatchingHeading l = false := by
  simp [isMatchingHeading, headingNameOf_of_marker_false h]

/-- Exhaustive description of one loop iteration. -/
theorem processTip_cases (st : ScanState) (l : String) :
    processTip st l = st ∨
    (∃ g, headingMarkerTest l.data = true ∧ regexMatch l.data = some g ∧
      processTip st l =
        { st with currentCategory := String.mk g, currentTips := [] }) ∨
    (headingMarkerTest l.data = false ∧ st.currentCategory ∈ categoryNames ∧
      processTip st l =
        { st with currentTips := st.currentTips ++ [l],
                  buckets := setBucket st.buckets st.currentCategory
                    (st.currentTips ++ [l]) }) := by
  by_cases h1 : headingMarkerTest l.data = true
  · cases hre : regexMatch l.data with
    | some g =>
      exact Or.inr (Or.inl ⟨g, h1, rfl, processTip_heading_found st l g h1 hre⟩)
    | none => exact Or.inl (processTip_heading_fail st l h1 hre)
  · have h1f : headingMarkerTest l.data = false := by simpa using h1
    by_cases h2 : st.currentCategory ∈ categoryNames
    · exact Or.inr (Or.inr ⟨h1f, h2, processTip_body st l h1f h2⟩)
    · exact Or.inl (processTip_skip st l h1f h2)

theorem mem_setBucket {bs : List (String × List String)} {k c : String}
    {v ls : List String} (h : (c, ls) ∈ setBucket bs k v) :
    (c, ls) ∈ bs ∨ ls = v := by
  rcases List.mem_map.mp h with ⟨p, hp, heq⟩
  by_cases hpk : (p.fst == k) = true
  · rw [if_pos hpk] at heq
    injection heq with e1 e2
    exact Or.inr e2.symm
  · rw [if_neg hpk] at heq
    rw [heq] at hp
    exact Or.inl hp

/-! ## Bucket contents are a verbatim, order-preserving selection of the input -/

theorem foldl_buckets_sublist :
    ∀ (ts : List String) (st : ScanState) (acc : List String),
      (∀ c ls, (c, ls) ∈ st.buckets → ls.Sublist acc) →
      st.currentTips.Sublist acc →
      ∀ c ls, (c, ls) ∈ (ts.foldl processTip st).buckets → ls.Sublist (acc ++ ts)
  | [], st, acc, hb, ht, c, ls, hmem => by
    simpa using hb c ls hmem
  | l :: ts, st, acc, hb, ht, c, ls, hmem => by
    rw [List.foldl_cons] at hmem
    have hacc : ∀ ls2 : List String, ls2.Sublist acc → ls2.Sublist (acc ++ [l]) :=
      fun ls2 h => h.trans (List.sublist_append_left acc [l])
    rcases processTip_cases st l with heq | ⟨g, hm, hre, heq⟩ | ⟨hm, hcur, heq⟩
    · rw [heq] at hmem
      have := foldl_buckets_sublist ts st (acc ++ [l])
        (fun c2 ls2 h => hacc ls2 (hb c2 ls2 h)) (hacc _ ht) c ls hmem
      simpa [List.append_assoc] using this
    · rw [heq] at hmem
      have := foldl_buckets_sublist ts
        { st with currentCategory := String.mk g, currentTips := [] } (acc ++ [l])
        (fun c2 ls2 h => hacc ls2 (hb c2 ls2 h)) (List.nil_sublist _) c ls hmem
      simpa [List.append_assoc] using this
    · rw [heq] at hmem
      have hnew : (st.currentTips ++ [l]).Sublist (acc ++ [l]) :=
        ht.append (List.Sublist.refl [l])
      have := foldl_buckets_sublist ts
        { st with currentTips := st.currentTips ++ [l],
                  buckets := setBucket st.buckets st.currentCategory
                    (st.currentTips ++ [l]) } (acc ++ [l])
        (fun c2 ls2 h => by
          rcases mem_setBucket h with h | h
          · exact hacc ls2 (hb c2 ls2 h)
          · rw [h]; exact hnew)
        hnew c ls hmem
      simpa [List.append_assoc] using this

/-! ## Bucket elements only come from lines satisfying a given predicate -/

theorem foldl_buckets_from :
    ∀ (ts : List String) (st : ScanState) (A : String → Prop),
      (∀ c ls, (c, ls) ∈ st.buckets → ∀ x ∈ ls, A x) →
      (∀ x ∈ st.currentTips, A x) →
      (∀ l ∈ ts, A l) →
      ∀ c ls, (c, ls) ∈ (ts.foldl processTip st).buckets → ∀ x ∈ ls, A x
  | [], st, A, hb, ht, hts, c, ls, hmem => hb c ls hmem
  | l :: ts, st, A, hb, ht, hts, c, ls, hmem => by
    rw [List.foldl_cons] at hmem
    have hl : A l := hts l (List.mem_cons_self l ts)
    have hts2 : ∀ x ∈ ts, A x := fun x hx => hts x (List.mem_cons_of_mem l hx)
    rcases processTip_cases st l with heq | ⟨g, hm, hre, heq⟩ | ⟨hm, hcur, heq⟩
    · rw [heq] at hmem
      exact foldl_buckets_from ts st A hb ht hts2 c ls hmem
    · rw [heq] at hmem
      exact foldl_buckets_from ts
        { st with currentCategory := String.mk g, currentTips := [] } A hb
        (by intro x hx; simp at hx) hts2 c ls hmem
    · rw [heq] at hmem
      have hnew : ∀ x ∈ st.currentTips ++ [l], A x := by
        intro x hx
        rcases List.mem_append.mp hx with hx | hx
        · exact ht x hx
        · rw [List.mem_singleton.mp hx]; exact hl
      exact foldl_buckets_from ts
        { st with currentTips := st.currentTips ++ [l],
                  buckets := setBucket st.buckets st.currentCategory
                    (st.currentTips ++ [l]) } A
        (fun c2 ls2 h2 => by
          rcases mem_setBucket h2 with h2 | h2
          · exact hb c2 ls2 h2
          · rw [h2]; exact hnew)
        hnew hts2 c ls hmem

/-! ## Before any recognized heading nothing accumulates -/

theorem foldl_no_recognized :
    ∀ (p : List String) (st : ScanState),
      (∀ l ∈ p, isRecognizedHeading l = false) →
      st.currentCategory ∉ categoryNames →
      st.currentTips = [] →
      ((p.foldl processTip st).currentCategory ∉ categoryNames ∧
       (p.foldl processTip st).currentTips = [] ∧
       (p.foldl processTip st).buckets = st.buckets)
  | [], st, hp, hcur, htips => ⟨hcur, htips, rfl⟩
  | l :: p, st, hp, hcur, htips => by
    rw [List.foldl_cons]
    have hl : isRecognizedHeading l = false := hp l (List.mem_cons_self l p)
    have hp2 : ∀ x ∈ p, isRecognizedHeading x = false :=
      fun x hx => hp x (List.mem_cons_of_mem l hx)
    rcases processTip_cases st l with heq | ⟨g, hm, hre, heq⟩ | ⟨hm, hcur2, heq⟩
    · rw [heq]
      exact foldl_no_recognized p st hp2 hcur htips
    · rw [heq]
      have hg : String.mk g ∉ categoryNames := by
        apply not_mem_of_contains_eq_false
        rw [← isRecognizedHeading_eq_contains (headingNameOf_of_found hm hre)]
        exact hl
      exact foldl_no_recognized p _ hp2 hg rfl
    · exact absurd hcur2 hcur

/-! ## Heading-marker lines never enter a bucket -/

theorem foldl_buckets_no_marker :
    ∀ (ts : List String) (st : ScanState),
      (∀ c ls, (c, ls) ∈ st.buckets → ∀ x ∈ ls, headingMarkerTest x.data = false) →
      (∀ x ∈ st.currentTips, headingMarkerTest x.data = false) →
      ∀ c ls, (c, ls) ∈ (ts.foldl processTip st).buckets → ∀ x ∈ ls,
        headingMarkerTest x.data = false
  | [], st, hb, ht, c, ls, hmem => hb c ls hmem
  | l :: ts, st, hb, ht, c, ls, hmem => by
    rw [List.foldl_cons] at hmem
    rcases processTip_cases st l with heq | ⟨g, hm, hre, heq⟩ | ⟨hm, hcur, heq⟩
    · rw [heq] at hmem
      exact foldl_buckets_no_marker ts st hb ht c ls hmem
    · rw [heq] at hmem
      exact foldl_buckets_no_marker ts
        { st with currentCategory := String.mk g, currentTips := [] } hb
        (by intro x hx; simp at hx) c ls hmem
    · rw [heq] at hmem
      have hnew : ∀ x ∈ st.currentTips ++ [l], headingMarkerTest x.data = false := by
        intro x hx
        rcases List.mem_append.mp hx with hx | hx
        · exact ht x hx
        · rw [List.mem_singleton.mp hx]; exact hm
      exact foldl_buckets_no_marker ts
        { st with currentTips := st.currentTips ++ [l],
                  buckets := setBucket st.buckets st.currentCategory
                    (st.currentTips ++ [l]) }
        (fun c2 ls2 h2 => by
          rcases mem_setBucket h2 with h2 | h2
          · exact hb c2 ls2 h2
          · rw [h2]; exact hnew)
        hnew c ls hmem

/-! ## A run of heading-marker lines leaves every bucket untouched -/

theorem foldl_markers_only :
    ∀ (ts : List String) (st : ScanState),
      (∀ l ∈ ts, headingMarkerTest l.data = true) →
      (ts.foldl processTip st).buckets = st.buckets
  | [], st, hts => rfl
  | l :: ts, st, hts => by
    rw [List.foldl_cons]
    have hl : headingMarkerTest l.data = true := hts l (List.mem_cons_self l ts)
    have hts2 : ∀ x ∈ ts, headingMarkerTest x.data = true :=
      fun x hx => hts x (List.mem_cons_of_mem l hx)
    rcases processTip_cases st l with heq | ⟨g, hm, hre, heq⟩ | ⟨hm, hcur, heq⟩
    · rw [heq]
      exact foldl_markers_only ts st hts2
    · rw [heq]
      exact foldl_markers_only ts _ hts2
    · rw [hm] at hl
      exact Bool.noConfusion hl

/-! ## A bucket is frozen while its category is not current and never re-headed -/

theorem foldl_frozen (c : String) :
    ∀ (ts : List String) (st : ScanState),
      st.currentCategory ≠ c →
      (∀ l ∈ ts, headingNameOf l ≠ some c) →
      bucketOf (ts.foldl processTip st) c = bucketOf st c
  | [], st, hcur, hno => rfl
  | l :: ts, st, hcur, hno => by
    rw [List.foldl_cons]
    have hl : headingNameOf l ≠ some c := hno l (List.mem_cons_self l ts)
    have hno2 : ∀ x ∈ ts, headingNameOf x ≠ some c :=
      fun x hx => hno x (List.mem_cons_of_mem l hx)
    rcases processTip_cases st l with heq | ⟨g, hm, hre, heq⟩ | ⟨hm, hcur2, heq⟩
    · rw [heq]
      exact foldl_frozen c ts st hcur hno2
    · rw [heq]
      have hg : String.mk g ≠ c := by
        intro hgc
        exact hl (by rw [← hgc]; exact headingNameOf_of_found hm hre)
      exact foldl_frozen c ts _ hg hno2
    · rw [heq]
      have step : bucketOf
          { st with currentTips := st.currentTips ++ [l],
                    buckets := setBucket st.buckets st.currentCategory
                      (st.currentTips ++ [l]) } c = bucketOf st c :=
        lookupBucket_setBucket_ne c st.currentCategory _ (Ne.symm hcur) st.buckets
      have hfr := foldl_frozen c ts
        { st with currentTips := st.currentTips ++ [l],
                  buckets := setBucket st.buckets st.currentCategory
                    (st.currentTips ++ [l]) } hcur hno2
      rw [hfr, step]

/-! ## Computation rules for the lines appended after a heading occurrence -/

theorem bodyLinesAfter_cons_matching {l : String} (h : isMatchingHeading l = true)
    (ts : List String) : bodyLinesAfter (l :: ts) = [] := by
  simp [bodyLinesAfter, List.takeWhile_cons, h]

theorem bodyLinesAfter_cons_marker_skip {l : String}
    (h : isMatchingHeading l = false) (hm : headingMarkerTest l.data = true)
    (ts : List String) : bodyLinesAfter (l :: ts) = bodyLinesAfter ts := by
  simp [bodyLinesAfter, List.takeWhile_cons, h, List.filter_cons, hm]

theorem bodyLinesAfter_cons_body {l : String}
    (hm : headingMarkerTest l.data = false)
    (ts : List String) : bodyLinesAfter (l :: ts) = l :: bodyLinesAfter ts := by
  have h : isMatchingHeading l = false := isMatchingHeading_of_marker_false hm
  simp [bodyLinesAfter, List.takeWhile_cons, h, List.filter_cons, hm]

/-! ## After the last heading occurrence of a category -/

theorem foldl_last_segment (c : String) (hc : c ∈ categoryNames) :
    ∀ (ts : List String) (st : ScanState),
      st.currentCategory = c →
      st.buckets.map Prod.fst = categoryNames →
      (∀ l ∈ ts, headingNameOf l ≠ some c) →
      bucketOf (ts.foldl processTip st) c =
        if bodyLinesAfter ts = [] then bucketOf st c
        else st.currentTips ++ bodyLinesAfter ts
  | [], st, hcur, hkeys, hno => by simp [bodyLinesAfter]
  | l :: ts, st, hcur, hkeys, hno => by
    rw [List.foldl_cons]
    have hl : headingNameOf l ≠ some c := hno l (List.mem_cons_self l ts)
    have hno2 : ∀ x ∈ ts, headingNameOf x ≠ some c :=
      fun x hx => hno x (List.mem_cons_of_mem l hx)
    by_cases hm : headingMarkerTest l.data = true
    · cases hre : regexMatch l.data with
      | some g =>
        rw [processTip_heading_found st l g hm hre]
        have hg : String.mk g ≠ c := by
          intro hgc
          exact hl (by rw [← hgc]; exact headingNameOf_of_found hm hre)
        rw [bodyLinesAfter_cons_matching (isMatchingHeading_of_found hm hre) ts]
        simp only [if_pos rfl]
        exact foldl_frozen c ts _ hg hno2
      | none =>
        rw [processTip_heading_fail st l hm hre]
        rw [bodyLinesAfter_cons_marker_skip (isMatchingHeading_of_fail hm hre) hm ts]
        exact foldl_last_segment c hc ts st hcur hkeys hno2
    · have hmf : headingMarkerTest l.data = false := by simpa using hm
      have hcmem : st.currentCategory ∈ categoryNames := by rw [hcur]; exact hc
      rw [processTip_body st l hmf hcmem]
      rw [bodyLinesAfter_cons_body hmf ts]
      have hkeys2 : (setBucket st.buckets st.currentCategory
          (st.currentTips ++ [l])).map Prod.fst = categoryNames := by
        rw [setBucket_map_fst]; exact hkeys
      have ih := foldl_last_segment c hc ts
        { st with currentTips := st.currentTips ++ [l],
                  buckets := setBucket st.buckets st.currentCategory
                    (st.currentTips ++ [l]) }
        hcur hkeys2 hno2
      have hself : bucketOf
          { st with currentTips := st.currentTips ++ [l],
                    buckets := setBucket st.buckets st.currentCategory
                      (st.currentTips ++ [l]) } c = st.currentTips ++ [l] := by
        show lookupBucket c
          (setBucket st.buckets st.currentCategory (st.currentTips ++ [l])) =
          st.currentTips ++ [l]
        rw [hcur]
        apply lookupBucket_setBucket_self
        rw [hkeys]
        exact hc
      rw [ih]
      by_cases hbody : bodyLinesAfter ts = []
      · rw [if_pos hbody, hself, hbody]
        simp
      · rw [if_neg hbody]
        simp

/-! ## Correctness of the regex model on well-formed heading lines -/

/-- Shape check for a category name as it appears in a heading: non-empty,
no line terminators, no opening parenthesis, and no leading or trailing
whitespace.  All five recognized names satisfy it. -/
def plainName (nm : List Char) : Bool :=
  nm.all jsIsDot && !nm.contains '(' &&
  (match nm.head? with | some c => !jsIsSpace c | none => false) &&
  (match nm.getLast? with | some c => !jsIsSpace c | none => false)

theorem plainName_names : ∀ c ∈ categoryNames, plainName c.data = true := by decide

theorem plainName_spec {nm : List Char} (h : plainName nm = true) :
    nm.all jsIsDot = true ∧ ('(' ∉ nm) ∧
    (∃ c nmrest, nm = c :: nmrest ∧ jsIsSpace c = false) ∧
    (∃ lc, nm.getLast? = some lc ∧ jsIsSpace lc = false) := by
  simp only [plainName, Bool.and_eq_true] at h
  obtain ⟨⟨⟨hdot, hnp⟩, hhead⟩, hlast⟩ := h
  refine ⟨hdot, ?_, ?_, ?_⟩
  · intro hmem
    have hc : nm.contains '(' = true := List.elem_iff.mpr hmem
    rw [hc] at hnp
    exact Bool.noConfusion hnp
  · cases nm with
    | nil => exact absurd hhead (by simp)
    | cons c rest =>
      refine ⟨c, rest, rfl, ?_⟩
      simp only [List.head?_cons] at hhead
      simpa using hhead
  · cases hl : nm.getLast? with
    | none => rw [hl] at hlast; exact absurd hlast (by simp)
    | some lc =>
      rw [hl] at hlast
      exact ⟨lc, rfl, by simpa using hlast⟩

theorem parenCore_closed (note : List Char) (hnote : ∀ c ∈ note, jsIsDot c = true) :
    parenCore ('(' :: (note ++ [')'])) = true := by
  simp [parenCore, List.getLast?_concat, List.dropLast_concat, List.all_eq_true,
    hnote]
  exact fun x hx => hnote x hx

theorem parenTailOk_closed (note : List Char) (hnote : ∀ c ∈ note, jsIsDot c = true) :
    ∀ sp2 : List Char, (∀ c ∈ sp2, jsIsSpace c = true) →
      parenTailOk (sp2 ++ '(' :: (note ++ [')'])) = true
  | [], hsp => by
    show parenTailOk ('(' :: (note ++ [')'])) = true
    simp [parenTailOk, parenCore_closed note hnote]
  | s :: sp2, hsp => by
    have ih := parenTailOk_closed note hnote sp2
      (fun c hc => hsp c (List.mem_cons_of_mem s hc))
    have hs : jsIsSpace s = true := hsp s (List.mem_cons_self s sp2)
    show parenTailOk (s :: (sp2 ++ '(' :: (note ++ [')']))) = true
    simp [parenTailOk, hs, ih]

theorem parenTailOk_blocked :
    ∀ (b tail : List Char), '(' ∉ b → (∃ x ∈ b, jsIsSpace x = false) →
      parenTailOk (b ++ tail) = false
  | [], tail, _, hex => by simp at hex
  | x :: b, tail, h, hex => by
    have hx : (x == '(') = false :=
      beq_eq_false_iff_ne.mpr (fun he => h (he ▸ List.mem_cons_self x b))
    show parenTailOk (x :: (b ++ tail)) = false
    by_cases hxs : jsIsSpace x = true
    · have hex2 : ∃ y ∈ b, jsIsSpace y = false := by
        rcases hex with ⟨y, hy, hys⟩
        rcases List.mem_cons.mp hy with rfl | hy2
        · rw [hxs] at hys; exact absurd hys (by simp)
        · exact ⟨y, hy2, hys⟩
      have ih := parenTailOk_blocked b tail
        (fun hm => h (List.mem_cons_of_mem x hm)) hex2
      simp [parenTailOk, parenCore, hx, hxs, ih]
    · have hxs2 : jsIsSpace x = false := by simpa using hxs
      simp [parenTailOk, parenCore, hx, hxs2]

theorem lazyScan_paren_end (t : List Char) (ht : parenTailOk t = true) :
    ∀ acc, lazyScan acc t = some acc := by
  intro acc
  cases t with
  | nil => rfl
  | cons c rest => simp [lazyScan, ht]

/-- The lazy group walks through the whole name: at no intermediate
position can the optional parenthetical (or the end of the string) close
the match earlier. -/
theorem lazyScan_through (tail : List Char)
    (hend : ∀ acc, lazyScan acc tail = some acc) :
    ∀ (b acc : List Char),
      b.all jsIsDot = true →
      (∀ b1 b2, b = b1 ++ b2 → b2 ≠ [] → parenTailOk (b2 ++ tail) = false) →
      lazyScan acc (b ++ tail) = some (acc ++ b)
  | [], acc, _, _ => by simpa using hend acc
  | x :: b, acc, hdot, hblock => by
    have hpt : parenTailOk (x :: (b ++ tail)) = false :=
      hblock [] (x :: b) rfl (by simp)
    have hx : jsIsDot x = true :=
      List.all_eq_true.mp hdot x (List.mem_cons_self x b)
    have hdot2 : b.all jsIsDot = true :=
      List.all_eq_true.mpr
        (fun y hy => List.all_eq_true.mp hdot y (List.mem_cons_of_mem x hy))
    have hblock2 : ∀ b1 b2, b = b1 ++ b2 → b2 ≠ [] →
        parenTailOk (b2 ++ tail) = false :=
      fun b1 b2 heq hne => hblock (x :: b1) b2 (by rw [heq]; rfl) hne
    have ih := lazyScan_through tail hend b (acc ++ [x]) hdot2 hblock2
    show lazyScan acc (x :: (b ++ tail)) = some (acc ++ (x :: b))
    rw [lazyScan, if_neg (by simp [hpt]), if_pos hx, ih]
    simp

/-- Backtracking over the greedy `\s*` finds the scan started at the given
offset. -/
theorem tailMatchGo_eq (s nm tail : List Char) (n : Nat)
    (hdrop : s.drop n = nm ++ tail)
    (hscan : lazyScan [] (nm ++ tail) = some nm) :
    tailMatchGo s n = some nm := by
  cases n with
  | zero =>
    have hs : s = nm ++ tail := by simpa using hdrop
    rw [tailMatchGo, hs, hscan]
  | succ k =>
    rw [tailMatchGo, hdrop, hscan]

theorem takeWhile_all_append (p : Char → Bool) :
    ∀ (xs ys : List Char), (∀ c ∈ xs, p c = true) →
      (xs ++ ys).takeWhile p = xs ++ ys.takeWhile p
  | [], ys, _ => rfl
  | x :: xs, ys, h => by
    have hx : p x = true := h x (List.mem_cons_self x xs)
    have ih := takeWhile_all_append p xs ys
      (fun c hc => h c (List.mem_cons_of_mem x hc))
    show (x :: (xs ++ ys)).takeWhile p = x :: (xs ++ ys.takeWhile p)
    simp [List.takeWhile_cons, hx, ih]

theorem tailMatch_eq (sp1 nm tail : List Char)
    (hsp1 : ∀ c ∈ sp1, jsIsSpace c = true)
    (hhead : ∃ c nmrest, nm = c :: nmrest ∧ jsIsSpace c = false)
    (hscan : lazyScan [] (nm ++ tail) = some nm) :
    tailMatch (sp1 ++ (nm ++ tail)) = some nm := by
  obtain ⟨c, nmrest, hnm, hcs⟩ := hhead
  have htw : (sp1 ++ (nm ++ tail)).takeWhile jsIsSpace = sp1 := by
    rw [takeWhile_all_append jsIsSpace sp1 (nm ++ tail) hsp1]
    rw [hnm]
    show sp1 ++ (c :: (nmrest ++ tail)).takeWhile jsIsSpace = sp1
    simp [List.takeWhile_cons, hcs]
  rw [tailMatch, htw]
  exact tailMatchGo_eq _ nm tail sp1.length (List.drop_left sp1 _) hscan

theorem matchAt_heading (ds rest2 : List Char)
    (hds : ds ≠ []) (hdig : ∀ c ∈ ds, jsIsDigit c = true) :
    matchAt ('#' :: '#' :: ' ' :: (ds ++ '.' :: rest2)) = tailMatch rest2 := by
  have ht : (ds ++ '.' :: rest2).takeWhile jsIsDigit = ds := by
    rw [takeWhile_all_append jsIsDigit ds ('.' :: rest2) hdig]
    have : ('.' :: rest2).takeWhile jsIsDigit = [] := by
      simp [List.takeWhile_cons]
      decide
    rw [this, List.append_nil]
  have hne : ds.isEmpty = false := by
    cases ds with
    | nil => exact absurd rfl hds
    | cons a l => rfl
  simp only [matchAt, ht, hne, Bool.false_eq_true, if_false]
  rw [List.drop_left]
  rfl

theorem regexMatch_head (s g : List Char) (h : matchAt s = some g) :
    regexMatch s = some g := by
  cases s with
  | nil => exact absurd h (by simp [matchAt])
  | cons c rest => simp [regexMatch, h]

/-- Full regex behaviour on a well-formed heading: marker, ordinal,
whitespace, a plain name, then either nothing or a parenthetical note
preceded by whitespace.  Capture group 1 is exactly the name. -/
theorem regexExtract_heading (ds sp1 nm tail : List Char)
    (hds : ds ≠ []) (hdig : ∀ c ∈ ds, jsIsDigit c = true)
    (hsp1 : ∀ c ∈ sp1, jsIsSpace c = true)
    (hnm : plainName nm = true)
    (htail : tail = [] ∨ ∃ sp2 note, tail = sp2 ++ '(' :: (note ++ [')']) ∧
      (∀ c ∈ sp2, jsIsSpace c = true) ∧ (∀ c ∈ note, jsIsDot c = true)) :
    regexMatch ('#' :: '#' :: ' ' :: (ds ++ '.' :: (sp1 ++ (nm ++ tail)))) =
      some nm := by
  obtain ⟨hdot, hnp, hhead, lc, hlast, hlcs⟩ := plainName_spec hnm
  have hend : ∀ acc, lazyScan acc tail = some acc := by
    rcases htail with rfl | ⟨sp2, note, rfl, hsp2, hnote⟩
    · intro acc; rfl
    · exact lazyScan_paren_end _ (parenTailOk_closed note hnote sp2 hsp2)
  have hblock : ∀ b1 b2, nm = b1 ++ b2 → b2 ≠ [] →
      parenTailOk (b2 ++ tail) = false := by
    intro b1 b2 heq hne
    have hnp2 : '(' ∉ b2 := fun hm => hnp (heq ▸ List.mem_append_right b1 hm)
    have hl2 : b2.getLast? = some lc := by
      rw [heq, List.getLast?_append_of_ne_nil b1 hne] at hlast
      exact hlast
    exact parenTailOk_blocked b2 tail hnp2
      ⟨lc, List.mem_of_mem_getLast? hl2, hlcs⟩
  have hscan : lazyScan [] (nm ++ tail) = some nm := by
    have := lazyScan_through tail hend nm [] hdot hblock
    simpa using this
  have htm : tailMatch (sp1 ++ (nm ++ tail)) = some nm :=
    tailMatch_eq sp1 nm tail hsp1 hhead hscan
  exact regexMatch_head _ nm
    ((matchAt_heading ds (sp1 ++ (nm ++ tail)) hds hdig).trans htm)

theorem headingNameOf_mk (xs g : List Char)
    (hm : headingMarkerTest xs = true) (hre : regexMatch xs = some g) :
    headingNameOf (String.mk xs) = some (String.mk g) := by
  have hd : (String.mk xs).data = xs := rfl
  simp [headingNameOf, hd, hm, hre]

/-! ## The claims -/

/-- C1, counterexample: after the repeated heading no body line follows, so
the claim predicts an empty final bucket for this category (only the lines
appended after the last occurrence may remain); the code instead keeps the
line accumulated under the first occurrence. -/
theorem scan_repeated_heading_cex :
    ¬ (bucketOf (scanTips ["## 1. Quick Wins", "Turn off lights",
        "## 1. Quick Wins"]) ("Quick Wins") = []) ∧
    bucketOf (scanTips ["## 1. Quick Wins", "Turn off lights",
      "## 1. Quick Wins"]) ("Quick Wins") = ["Turn off lights"] := by decide

/-- C1, amended: when a recognized category heading occurs and is the last
occurrence for its category (no later line extracts the same name), and at
least one body line is appended after it, the category's final bucket is
exactly those body lines — the lines accumulated under earlier occurrences
are discarded, not merged.  (Without a body line after the last occurrence
the earlier lines survive; see the counterexample and C9.) -/
theorem scan_last_occurrence_wins (ts1 ts2 : List String) (h c : String)
    (hrec : headingNameOf h = some c) (hc : c ∈ categoryNames)
    (hlast : ∀ l ∈ ts2, headingNameOf l ≠ some c)
    (hbody : bodyLinesAfter ts2 ≠ []) :
    bucketOf (scanTips (ts1 ++ h :: ts2)) c = bodyLinesAfter ts2 := by
  obtain ⟨hm, hre⟩ := headingNameOf_eq_some hrec
  simp only [scanTips]
  rw [List.foldl_append, List.foldl_cons,
    processTip_heading_found (ts1.foldl processTip initState) h c.data hm hre]
  have hmk : String.mk c.data = c := rfl
  have hseg := foldl_last_segment c hc ts2
    { ts1.foldl processTip initState with
        currentCategory := String.mk c.data, currentTips := [] }
    hmk (scanTips_buckets_fst ts1) hlast
  rw [hseg, if_neg hbody]
  simp

/-- C1 witness. -/
theorem scan_last_occurrence_wins_witness :
    (headingNameOf ("## 1. Quick Wins") = some ("Quick Wins") ∧
      ("Quick Wins" : String) ∈ categoryNames ∧
      (∀ l ∈ (["new line"] : List String),
        headingNameOf l ≠ some ("Quick Wins")) ∧
      bodyLinesAfter ["new line"] ≠ []) ∧
    bucketOf (scanTips (["## 1. Quick Wins", "old line"] ++
      "## 1. Quick Wins" :: ["new line"])) ("Quick Wins") =
      bodyLinesAfter ["new line"] :=
  ⟨⟨by decide, by decide, by decide, by decide⟩,
    scan_last_occurrence_wins ["## 1. Quick Wins", "old line"] ["new line"]
      ("## 1. Quick Wins") ("Quick Wins") (by decide) (by decide)
      (by decide) (by decide)⟩

/-- C2: a line contributes to a bucket only under a recognized current
category.  First part: if a prefix contains no recognized heading, every
line of every final bucket comes from the rest of the sequence — so lines
before the first recognized heading appear in no output bucket.  Second
part: a non-heading line processed while the current category is unset or
unrecognized is dropped outright: the scan of the whole sequence is as if
the line were absent. -/
theorem scan_unattributed_lines_in_no_bucket :
    (∀ p s, (∀ l ∈ p, isRecognizedHeading l = false) →
      ∀ c ls, (c, ls) ∈ (scanTips (p ++ s)).buckets → ∀ x ∈ ls, x ∈ s) ∧
    (∀ ts1 (l : String) ts2, headingMarkerTest l.data = false →
      (scanTips ts1).currentCategory ∉ categoryNames →
      scanTips (ts1 ++ l :: ts2) = scanTips (ts1 ++ ts2)) := by
  constructor
  · intro p s hp c ls hmem x hx
    obtain ⟨hcur, htips, hbuckets⟩ :=
      foldl_no_recognized p initState hp (by decide) rfl
    simp only [scanTips] at hmem
    rw [List.foldl_append] at hmem
    exact foldl_buckets_from s (p.foldl processTip initState) (fun y => y ∈ s)
      (fun c2 ls2 h2 y hy => by
        rw [hbuckets] at h2
        rw [mem_initCategories h2] at hy
        simp at hy)
      (fun y hy => by rw [htips] at hy; simp at hy)
      (fun l2 hl2 => hl2) c ls hmem x hx
  · intro ts1 l ts2 hmarker hcur
    simp only [scanTips]
    rw [List.foldl_append, List.foldl_append, List.foldl_cons,
      processTip_skip (ts1.foldl processTip initState) l hmarker hcur]

/-- C2 witness. -/
theorem scan_unattributed_lines_in_no_bucket_witness :
    ((∀ l ∈ (["stray line"] : List String), isRecognizedHeading l = false) ∧
      ("Quick Wins", ["tip"]) ∈
        (scanTips (["stray line"] ++ ["## 1. Quick Wins", "tip"])).buckets ∧
      ("tip" : String) ∈ (["tip"] : List String)) ∧
    ("tip" : String) ∈ (["## 1. Quick Wins", "tip"] : List String) :=
  ⟨⟨by decide, by decide, by decide⟩,
    scan_unattributed_lines_in_no_bucket.1 ["stray line"]
      ["## 1. Quick Wins", "tip"] (by decide) ("Quick Wins") ["tip"]
      (by decide) "tip" (by decide)⟩

/-- C3: on a heading line consisting of the marker, an ordinal (digits then
a period), optional whitespace, one of the five category names, and an
optional parenthetical note with surrounding whitespace, the extraction
returns exactly the category name. -/
theorem headingNameOf_extracts_category_name
    (ds sp1 sp2 note : List Char) (name : String)
    (hds : ds ≠ []) (hdig : ∀ c ∈ ds, jsIsDigit c = true)
    (hsp1 : ∀ c ∈ sp1, jsIsSpace c = true)
    (hname : name ∈ categoryNames)
    (hsp2 : ∀ c ∈ sp2, jsIsSpace c = true)
    (hnote : ∀ c ∈ note, jsIsDot c = true) :
    headingNameOf (String.mk
      ('#' :: '#' :: ' ' :: (ds ++ '.' :: (sp1 ++ name.data)))) = some name ∧
    headingNameOf (String.mk
      ('#' :: '#' :: ' ' :: (ds ++ '.' :: (sp1 ++ (name.data ++
        (sp2 ++ '(' :: (note ++ [')'])))))))  = some name := by
  have hplain : plainName name.data = true := plainName_names name hname
  constructor
  · have h := regexExtract_heading ds sp1 name.data [] hds hdig hsp1 hplain
      (Or.inl rfl)
    rw [List.append_nil] at h
    exact headingNameOf_mk _ name.data rfl h
  · have h := regexExtract_heading ds sp1 name.data
      (sp2 ++ '(' :: (note ++ [')'])) hds hdig hsp1 hplain
      (Or.inr ⟨sp2, note, rfl, hsp2, hnote⟩)
    exact headingNameOf_mk _ name.data rfl h

/-- C3 witness. -/
theorem headingNameOf_extracts_category_name_witness :
    ((['1'] : List Char) ≠ [] ∧
      (∀ c ∈ (['1'] : List Char), jsIsDigit c = true) ∧
      (∀ c ∈ ([' '] : List Char), jsIsSpace c = true) ∧
      ("Quick Wins" : String) ∈ categoryNames ∧
      (∀ c ∈ (['n', 'o', 't', 'e'] : List Char), jsIsDot c = true)) ∧
    (headingNameOf (String.mk ('#' :: '#' :: ' ' :: (['1'] ++ '.' ::
        ([' '] ++ ("Quick Wins").data)))) = some ("Quick Wins") ∧
      headingNameOf (String.mk ('#' :: '#' :: ' ' :: (['1'] ++ '.' ::
        ([' '] ++ (("Quick Wins").data ++ ([' '] ++ '(' ::
          (['n', 'o', 't', 'e'] ++ [')']))))))) = some ("Quick Wins")) :=
  ⟨⟨by decide, by decide, by decide, by decide, by decide⟩,
    headingNameOf_extracts_category_name ['1'] [' '] [' ']
      ['n', 'o', 't', 'e'] ("Quick Wins") (by decide) (by decide)
      (by decide) (by decide) (by decide) (by decide)⟩

/-- C4: on any failed request the handler ends with the generic error
message set, the tips list empty (cleared at submission start and not
restored), and loading false, so the submit control is re-enabled; no
other field is touched and the outcome does not depend on the kind of
failure. -/
theorem handleSubmit_failure_resets (st : AppState) :
    handleSubmit st RequestOutcome.failure =
      { st with tips := [], loading := false,
                error := some submitErrorMessage } ∧
    (handleSubmit st RequestOutcome.failure).error = some submitErrorMessage ∧
    (handleSubmit st RequestOutcome.failure).tips = [] ∧
    submitDisabled (handleSubmit st RequestOutcome.failure) = false :=
  ⟨rfl, rfl, rfl, rfl⟩

/-- C5: the two-heading scenario renders exactly the two expected cards,
each with its single body line. -/
theorem renderTipCards_example :
    renderTipCards ["## 1. Quick Wins", "Turn off lights",
      "## 2. Sustainable Living", "Compost food waste"] =
      [("Quick Wins", ["Turn off lights"]),
       ("Sustainable Living", ["Compost food waste"])] := by decide

/-- C6: a card is rendered exactly for the categories whose bucket is
non-empty. -/
theorem renderTipCards_nonempty_iff (ts : List String) (c : String)
    (ls : List String) :
    (c, ls) ∈ renderTipCards ts ↔
      (c, ls) ∈ (scanTips ts).buckets ∧ ls ≠ [] := by
  rw [renderTipCards, List.mem_filter]
  constructor
  · rintro ⟨h1, h2⟩
    refine ⟨h1, ?_⟩
    intro hnil
    rw [hnil] at h2
    simp at h2
  · rintro ⟨h1, h2⟩
    refine ⟨h1, ?_⟩
    simp
    exact List.length_pos.mpr h2

/-- C7: every final bucket is a subsequence of the input lines: lines are
appended verbatim and keep their relative input order. -/
theorem scan_bucket_sublist (ts : List String) (c : String) (ls : List String)
    (h : (c, ls) ∈ (scanTips ts).buckets) : ls.Sublist ts := by
  have hres := foldl_buckets_sublist ts initState []
    (fun c2 ls2 hm => by rw [mem_initCategories hm])
    (List.nil_sublist []) c ls h
  simpa using hres

/-- C7 witness. -/
theorem scan_bucket_sublist_witness :
    (("Quick Wins", ["Turn off lights"]) ∈
      (scanTips ["## 1. Quick Wins", "Turn off lights"]).buckets) ∧
    List.Sublist ["Turn off lights"] ["## 1. Quick Wins", "Turn off lights"] :=
  ⟨by decide, scan_bucket_sublist ["## 1. Quick Wins", "Turn off lights"]
    ("Quick Wins") ["Turn off lights"] (by decide)⟩

/-- C8: a line starting with the heading marker is never appended to any
bucket, and a marker line on which the regex fails leaves the whole state
(including the current category) unchanged. -/
theorem scan_marker_lines_never_bucketed :
    (∀ ts c ls, (c, ls) ∈ (scanTips ts).buckets → ∀ x ∈ ls,
      headingMarkerTest x.data = false) ∧
    (∀ (st : ScanState) (l : String), headingMarkerTest l.data = true →
      regexMatch l.data = none → processTip st l = st) := by
  constructor
  · intro ts c ls hmem x hx
    exact foldl_buckets_no_marker ts initState
      (fun c2 ls2 h2 y hy => by
        rw [mem_initCategories h2] at hy
        simp at hy)
      (fun y hy => by simp [initState] at hy)
      c ls hmem x hx
  · intro st l h1 h2
    exact processTip_heading_fail st l h1 h2

/-- C8 witness. -/
theorem scan_marker_lines_never_bucketed_witness :
    (("Quick Wins", ["tip line"]) ∈
        (scanTips ["## 1. Quick Wins", "tip line", "## not matching"]).buckets ∧
      ("tip line" : String) ∈ (["tip line"] : List String) ∧
      headingMarkerTest ("## not matching").data = true ∧
      regexMatch ("## not matching").data = none) ∧
    (headingMarkerTest ("tip line").data = false ∧
      processTip initState ("## not matching") = initState) :=
  ⟨⟨by decide, by decide, by decide, by decide⟩,
    ⟨scan_marker_lines_never_bucketed.1
        ["## 1. Quick Wins", "tip line", "## not matching"] ("Quick Wins")
        ["tip line"] (by decide) "tip line" (by decide),
      scan_marker_lines_never_bucketed.2 initState ("## not matching")
        (by decide) (by decide)⟩⟩

/-- C9, counterexample: the second occurrence of the Quick Wins heading is
followed immediately by the next heading line (another Quick Wins heading),
so the claim's condition holds for it and the claim predicts that the
earlier accumulated line survives in the final bucket; but that next
heading is followed by a body line, which overwrites the bucket, so the
final bucket is exactly the new line and the earlier one is gone. -/
theorem scan_reset_unobservable_cex :
    headingMarkerTest ("## 1. Quick Wins").data = true ∧
    bucketOf (scanTips ["## 1. Quick Wins", "a", "## 1. Quick Wins",
      "## 1. Quick Wins", "b"]) ("Quick Wins") = ["b"] ∧
    ("a" : String) ∉ bucketOf (scanTips ["## 1. Quick Wins", "a",
      "## 1. Quick Wins", "## 1. Quick Wins", "b"]) ("Quick Wins") := by
  decide

/-- C9, amended: after a recognized category heading occurrence, the
category's final bucket still equals — hence still contains — the lines
accumulated before it, provided (a) no body line follows that occurrence
before the next successfully matching heading (heading-marker lines on
which the regex fails are skipped and do not end this segment), and (b) no
later line extracts the same category's name again.  The accumulator reset
becomes observable only once a body line is appended while the category is
current. -/
theorem scan_reset_unobservable_without_body (ts1 ts2 : List String)
    (h c : String) (hrec : headingNameOf h = some c) (hc : c ∈ categoryNames)
    (hseg : bodyLinesAfter ts2 = [])
    (hno : ∀ l ∈ ts2, headingNameOf l ≠ some c) :
    bucketOf (scanTips (ts1 ++ h :: ts2)) c = bucketOf (scanTips ts1) c := by
  obtain ⟨hm, hre⟩ := headingNameOf_eq_some hrec
  simp only [scanTips]
  rw [List.foldl_append, List.foldl_cons,
    processTip_heading_found (ts1.foldl processTip initState) h c.data hm hre]
  have hmk : String.mk c.data = c := rfl
  have hlast := foldl_last_segment c hc ts2
    { ts1.foldl processTip initState with
        currentCategory := String.mk c.data, currentTips := [] }
    hmk (scanTips_buckets_fst ts1) hno
  rw [hlast, if_pos hseg]
  rfl

/-- C9 witness: a different category's heading (then its body line) follows
the repeated heading, and the earlier Quick Wins line survives. -/
theorem scan_reset_unobservable_without_body_witness :
    (headingNameOf ("## 1. Quick Wins") = some ("Quick Wins") ∧
      ("Quick Wins" : String) ∈ categoryNames ∧
      bodyLinesAfter ["## 2. Sustainable Living", "b"] = [] ∧
      (∀ l ∈ (["## 2. Sustainable Living", "b"] : List String),
        headingNameOf l ≠ some ("Quick Wins"))) ∧
    bucketOf (scanTips (["## 1. Quick Wins", "a"] ++
        "## 1. Quick Wins" :: ["## 2. Sustainable Living", "b"])) ("Quick Wins") =
      bucketOf (scanTips ["## 1. Quick Wins", "a"]) ("Quick Wins") :=
  ⟨⟨by decide, by decide, by decide, by decide⟩,
    scan_reset_unobservable_without_body ["## 1. Quick Wins", "a"]
      ["## 2. Sustainable Living", "b"] ("## 1. Quick Wins") ("Quick Wins")
      (by decide) (by decide) (by decide) (by decide)⟩

/-- C10: the rendered cards are, in order, a subsequence of the fixed
declaration order of the five categories, and a category is rendered
exactly when its bucket is non-empty — so input heading order never
affects card order. -/
theorem renderTipCards_declaration_order (ts : List String) :
    ((renderTipCards ts).map Prod.fst).Sublist categoryNames ∧
    (∀ c, c ∈ (renderTipCards ts).map Prod.fst ↔
      ∃ ls, (c, ls) ∈ (scanTips ts).buckets ∧ ls ≠ []) := by
  constructor
  · have hsub : (renderTipCards ts).Sublist (scanTips ts).buckets :=
      List.filter_sublist _
    have hmap := hsub.map Prod.fst
    rw [scanTips_buckets_fst ts] at hmap
    exact hmap
  · intro c
    constructor
    · intro hc
      rcases List.mem_map.mp hc with ⟨⟨c2, ls⟩, hmem, heq⟩
      rcases List.mem_filter.mp hmem with ⟨h1, h2⟩
      cases heq
      refine ⟨ls, h1, ?_⟩
      intro hnil
      rw [hnil] at h2
      simp at h2
    · rintro ⟨ls, h1, h2⟩
      refine List.mem_map.mpr ⟨(c, ls), ?_, rfl⟩
      refine List.mem_filter.mpr ⟨h1, ?_⟩
      simp
      exact List.length_pos.mpr h2

end SustainAI
